import Mathlib

/-!
Shallow embedding of `src/tenant_power.py` (kube-green tenant power scheduler).

Python strings are modeled as Lean `String`; the string primitives the source
uses (`str.strip`, `str.split`, `str.replace`, `str.lower`, `int(...)`,
`str(...)`, `unicodedata` accent stripping, and the two regular expressions)
are modeled by explicit character-list functions below.  ASCII digits and
ASCII whitespace model the regex classes `\d` and `\s`.
-/

namespace TenantPower

/-- Models the whitespace class used by `str.strip` and the regex `\s`. -/
def isSpaceChar (c : Char) : Bool := c.isWhitespace

/-- Models Python `str.strip()`: drop leading and trailing whitespace. -/
def trimChars (l : List Char) : List Char :=
  ((l.dropWhile isSpaceChar).reverse.dropWhile isSpaceChar).reverse

/-- Models Python `str.split(sep)` for a one-character separator:
empty pieces are kept, and the empty string yields one empty piece. -/
def splitOnChar (c : Char) : List Char → List (List Char)
  | [] => [[]]
  | x :: xs =>
    if x = c then [] :: splitOnChar c xs
    else
      match splitOnChar c xs with
      | h :: t => (x :: h) :: t
      | [] => [[x]]

/-- Models Python `sep.join(...)` for a one-character separator. -/
def intercalateChar (c : Char) : List (List Char) → List Char
  | [] => []
  | [x] => x
  | x :: xs => x ++ c :: intercalateChar c xs

/-- Models Python `int(...)` on the canonical non-negative decimal strings the
source feeds it: at least one ASCII digit, nothing else accepted. -/
def charsToNatAux (acc : Nat) : List Char → Option Nat
  | [] => some acc
  | c :: cs => if c.isDigit then charsToNatAux (acc * 10 + (c.toNat - 48)) cs else none

/-- Models Python `int(...)`; `int("")` raises, modeled as `none`. -/
def charsToNat : List Char → Option Nat
  | [] => none
  | l => charsToNatAux 0 l

/-- Decimal printing of a natural number (Python `str(n)`), with a fuel
argument for structural termination.  The fuel `n + 1` always suffices. -/
def natToCharsAux : Nat → Nat → List Char
  | 0, _ => []
  | fuel + 1, n =>
    if n < 10 then [Nat.digitChar n]
    else natToCharsAux fuel (n / 10) ++ [Nat.digitChar (n % 10)]

/-- Models Python `str(n)` for a natural number. -/
def natToChars (n : Nat) : List Char := natToCharsAux (n + 1) n

/-- Models `",".join(str(n) for n in lst)`. -/
def joinCommaNats (l : List Nat) : List Char := intercalateChar ',' (l.map natToChars)

/-- Models the seen-set duplicate-removal loop used throughout the source
(first occurrence kept, insertion order preserved). -/
def dedupeNats (seen : List Nat) : List Nat → List Nat
  | [] => []
  | n :: rest =>
    if n ∈ seen then dedupeNats seen rest
    else n :: dedupeNats (n :: seen) rest

/-- Models `str.lower()` on the alphabet relevant to the source: ASCII
letters plus the accented Spanish capitals appearing in day names. -/
def lowerChar (c : Char) : Char :=
  match c with
  | 'Á' => 'á' | 'É' => 'é' | 'Í' => 'í' | 'Ó' => 'ó' | 'Ú' => 'ú'
  | 'Ñ' => 'ñ' | 'Ü' => 'ü'
  | _ => c.toLower

/-- Models `_strip_accents` (NFD normalization plus removal of combining
marks) on the accented characters reachable from the source's alphabet. -/
def stripAccentChar (c : Char) : Char :=
  match c with
  | 'á' => 'a' | 'é' => 'e' | 'í' => 'i' | 'ó' => 'o' | 'ú' => 'u'
  | 'ñ' => 'n' | 'ü' => 'u'
  | 'Á' => 'A' | 'É' => 'E' | 'Í' => 'I' | 'Ó' => 'O' | 'Ú' => 'U'
  | 'Ñ' => 'N' | 'Ü' => 'U'
  | _ => c

/-- Models the regex character class `[A-Za-zÁÉÍÓÚáéíóúÑñ]`
from `_expand_weekdays_str`. -/
def isLetterEs (c : Char) : Bool :=
  (('A' ≤ c && c ≤ 'Z') || ('a' ≤ c && c ≤ 'z')) ||
    c ∈ ['Á', 'É', 'Í', 'Ó', 'Ú', 'á', 'é', 'í', 'ó', 'ú', 'Ñ', 'ñ']

/-- Automaton for the regex `\s*\d(?:\s*[-,]\s*\d)*\s*` (the already-numeric
form check in `human_weekdays_to_kube`).  The Boolean state records whether
a digit was read since the last separator (or the start). -/
def numericFormAux : Bool → List Char → Bool
  | haveDigit, [] => haveDigit
  | haveDigit, c :: cs =>
    if isSpaceChar c then numericFormAux haveDigit cs
    else if c.isDigit then !haveDigit && numericFormAux true cs
    else if c = '-' || c = ',' then haveDigit && numericFormAux false cs
    else false

/-- Models `re.fullmatch(r"\s*\d(?:\s*[-,]\s*\d)*\s*", raw)`. -/
def numericForm (l : List Char) : Bool := numericFormAux false l

/-- Models Python `"-" in p` followed by `p.split("-", 1)`:
the part before the first dash and the part after it. -/
def splitFirstDash (l : List Char) : List Char × List Char :=
  (l.takeWhile (fun c => c ≠ '-'), (l.dropWhile (fun c => c ≠ '-')).drop 1)

/-- The `DAYS_ES` table: Spanish day names to kube-green indices
(0 = domingo .. 6 = sábado). -/
def DAYS_ES : List (String × Nat) :=
  [("domingo", 0), ("lunes", 1), ("martes", 2), ("miercoles", 3), ("miércoles", 3),
   ("jueves", 4), ("viernes", 5), ("sabado", 6), ("sábado", 6)]

/-- Dictionary lookup in `DAYS_ES`. -/
def lookupDay (s : String) : Option Nat := DAYS_ES.lookup s

/-- One token of the day-name loop body of `human_weekdays_to_kube`:
either a `name-name` range (circular when the end index is smaller than the
start index) or a single day name; anything else raises `ValueError`. -/
def parseToken (p : List Char) : Except String (List Nat) :=
  if p.contains '-' then
    match lookupDay (String.mk (splitFirstDash p).1), lookupDay (String.mk (splitFirstDash p).2) with
    | some s, some e =>
      if s ≤ e then .ok (List.range' s (e + 1 - s))
      else .ok (List.range' s (7 - s) ++ List.range' 0 (e + 1))
    | _, _ => .error ("Dia no reconocido en rango: " ++ String.mk p)
  else
    match lookupDay (String.mk p) with
    | some n => .ok [n]
    | none => .error ("Dia no reconocido: " ++ String.mk p)

/-- The `for p in parts` loop of `human_weekdays_to_kube`: tokens are
expanded left to right and concatenated; the first bad token raises. -/
def parseTokens : List (List Char) → Except String (List Nat)
  | [] => .ok []
  | p :: rest =>
    match parseToken p with
    | .error e => .error e
    | .ok ns =>
      match parseTokens rest with
      | .error e => .error e
      | .ok ms => .ok (ns ++ ms)

/-- The normalized character stream of `human_weekdays_to_kube`:
`_strip_accents(raw.lower().replace(" ", ""))` applied to the stripped input. -/
def humanNormalized (raw : List Char) : List Char :=
  ((raw.map lowerChar).filter (fun c => c ≠ ' ')).map stripAccentChar

/-- The non-empty comma-separated parts of the normalized input
(`[p for p in txt.split(",") if p]`). -/
def humanParts (s : String) : List (List Char) :=
  (splitOnChar ',' (humanNormalized (trimChars s.toList))).filter (fun p => p ≠ [])

/-- Models `human_weekdays_to_kube`: converts `"lunes-viernes"`,
`"viernes,sábado,domingo"`, `"0-6"`, ... to the kube-green numeric form.
Empty input yields `"0-6"`; input already in numeric form is passed through
with spaces removed; otherwise day names are parsed (a `ValueError` is
modeled as `Except.error`). -/
def human_weekdays_to_kube (s : String) : Except String String :=
  let raw := trimChars s.toList
  if raw = [] then .ok "0-6"
  else if numericForm raw then .ok (String.mk (raw.filter (fun c => c ≠ ' ')))
  else
    match parseTokens (humanParts s) with
    | .error e => .error e
    | .ok nums => .ok (String.mk (joinCommaNats (dedupeNats [] nums)))

/-- The `for chunk in s.split(",")` loop of `_expand_weekdays_str`: each
stripped non-empty chunk is a numeric range (circular when the end is
smaller than the start) or a single number; `int` failures raise. -/
def processChunks : List (List Char) → Except String (List Nat)
  | [] => .ok []
  | chunk :: rest =>
    let c := trimChars chunk
    if c = [] then processChunks rest
    else if c.contains '-' then
      let a := (splitFirstDash c).1
      let b := (splitFirstDash c).2
      match charsToNat a, charsToNat b with
      | some av, some bv =>
        let seq := if av ≤ bv then List.range' av (bv + 1 - av)
                   else List.range' av (7 - av) ++ List.range' 0 (bv + 1)
        match processChunks rest with
        | .error e => .error e
        | .ok ms => .ok (seq ++ ms)
      | _, _ => .error ("invalid literal for int: " ++ String.mk c)
    else
      match charsToNat c with
      | some n =>
        match processChunks rest with
        | .error e => .error e
        | .ok ms => .ok (n :: ms)
      | none => .error ("invalid literal for int: " ++ String.mk c)

/-- Models `_expand_weekdays_str`: `"0-6"`, `"1,3,5"`, `"5-1"` (circular),
... to a duplicate-free list of indices; the empty string means the full
week; day names are first converted with `human_weekdays_to_kube`. -/
def _expand_weekdays_str (raw : String) : Except String (List Nat) :=
  if raw = "" then .ok (List.range 7)
  else
    let s := trimChars raw.toList
    let step : Except String (List Char) :=
      if s.any isLetterEs then
        match human_weekdays_to_kube (String.mk s) with
        | .error e => .error e
        | .ok k => .ok k.toList
      else .ok s
    match step with
    | .error e => .error e
    | .ok s2 =>
      match processChunks (splitOnChar ',' s2) with
      | .error e => .error e
      | .ok toks => .ok (dedupeNats [] toks)

/-- Models `_shift_weekdays_str`: shift every weekday by `shift` modulo 7
and deduplicate; the result is serialized as a plain comma list.
Python `shift % 7` is non-negative, modeled by `Int.emod` and `toNat`. -/
def _shift_weekdays_str (raw : String) (shift : Int) : Except String String :=
  let sh := (shift % 7).toNat
  match _expand_weekdays_str raw with
  | .error e => .error e
  | .ok lst =>
    .ok (String.mk (joinCommaNats (dedupeNats [] (lst.map (fun n => (n + sh) % 7)))))

/-- Models Python `map(int, hhmm.split(":"))` with tuple unpacking: exactly
two colon-separated decimal fields. -/
def parse_hhmm (s : String) : Option (Nat × Nat) :=
  match splitOnChar ':' s.toList with
  | [h, m] =>
    match charsToNat h, charsToNat m with
    | some hh, some mm => some (hh, mm)
    | _, _ => none
  | _ => none

/-- Two-digit zero-padded field of `strftime("%H:%M")`. -/
def pad2 (n : Nat) : List Char :=
  if n < 10 then '0' :: natToChars n else natToChars n

/-- Renders a minute-of-day value as `strftime("%H:%M")` does. -/
def fmtHHMM (total : Nat) : String :=
  String.mk (pad2 (total / 60) ++ ':' :: pad2 (total % 60))

/-- Models `add_minutes_hhmm`: parse `HH:MM`, add `minutes` via
`datetime + timedelta`, and render `%H:%M` (so the result wraps modulo
24 hours).  `datetime.time` rejects out-of-range fields, modeled as `none`. -/
def add_minutes_hhmm (hhmm_utc : String) (minutes : Int) : Option String :=
  match parse_hhmm hhmm_utc with
  | none => none
  | some (hh, mm) =>
    if hh < 24 ∧ mm < 60 then
      some (fmtHHMM (((hh * 60 + mm : Int) + minutes) % 1440).toNat)
    else none

/-- Models `to_utc_hhmm_and_dayshift`.  The source anchors the conversion to
today's date and asks the external `zoneinfo` database for the zone's UTC
offset; the offset is modeled as the fixed parameter `utcOffsetMin` (the
zone's `utcoffset` in minutes, e.g. America/Bogota is `-300` year-round).
The UTC wall clock of the same instant is `local - utcoffset`, and
`day_shift = (dt_utc.date() - dt_local.date()).days` is the number of whole
days that value overflows the local calendar day, i.e. its floor division
by 1440 (for a positive divisor `Int.ediv` is floor division). -/
def to_utc_hhmm_and_dayshift (utcOffsetMin : Int) (local_hhmm : String) :
    Option (String × Int) :=
  match parse_hhmm local_hhmm with
  | none => none
  | some (hh, mm) =>
    if hh < 24 ∧ mm < 60 then
      let u : Int := (hh * 60 + mm : Int) - utcOffsetMin
      some (fmtHHMM (u % 1440).toNat, u / 1440)
    else none

/-- Models the staggered wake times computed by `make_all_objects_for_tenant`
(step 4, lines 596-598): `on_pg_hdfs = on_utc`,
`on_pgbouncer = add_minutes_hhmm(on_utc, 5)`,
`on_deployments = add_minutes_hhmm(on_utc, 7)`. -/
def staggered_on_times (on_utc : String) : Option (String × String × String) :=
  match add_minutes_hhmm on_utc 5, add_minutes_hhmm on_utc 7 with
  | some pgb, some dep => some (on_utc, pgb, dep)
  | _, _ => none

/-! ## Object model (`meta`, `sleepinfo_base`, `cr_yaml`) -/

/-- One `excludeRef` entry `{"matchLabels": {...}}`, modeled as its
`matchLabels` dictionary. -/
abbrev LabelSel : Type := List (String × String)

/-- One entry of a `patches` list (`patch_block`). -/
structure Patch where
  group : String
  kind : String
  patch : String
deriving DecidableEq

/-- The `EXCLUDE_PG_HDFS_LABELS` constant. -/
def EXCLUDE_PG_HDFS_LABELS : List LabelSel :=
  [[("app.kubernetes.io/managed-by", "postgres-operator")],
   [("postgres.stratio.com/cluster", "true")],
   [("app.kubernetes.io/part-of", "postgres")],
   [("app.kubernetes.io/managed-by", "hdfs-operator")],
   [("hdfs.stratio.com/cluster", "true")],
   [("app.kubernetes.io/part-of", "hdfs")]]

/-- Models `get_exclude_pg_hdfs_refs` (returns a copy of the constant). -/
def get_exclude_pg_hdfs_refs : List LabelSel := EXCLUDE_PG_HDFS_LABELS

/-- Models the `meta(...)` dictionary: the `annotations` key is only added
when a non-empty dictionary is passed, modeled by the empty list. -/
structure Metadata where
  name : String
  ns : String
  annotations : List (String × String)
deriving DecidableEq

/-- Models `meta(name, namespace, annotations)`. -/
def meta (name ns : String) (annotations : List (String × String)) : Metadata :=
  { name := name, ns := ns, annotations := annotations }

/-- Models the spec dictionary built by `sleepinfo_base` and mutated by its
callers.  `wakeUpAt` is only present when not `None`; the three CRD Boolean
keys are only present when `True` (a `false` field models an absent key);
`excludeRef` and `patches` are added by the callers when non-empty. -/
structure SleepSpec where
  weekdays : String
  timeZone : String
  sleepAt : String
  suspendDeployments : Bool
  suspendStatefulSets : Bool
  suspendCronJobs : Bool
  wakeUpAt : Option String
  suspendDeploymentsPgbouncer : Bool
  suspendStatefulSetsPostgres : Bool
  suspendStatefulSetsHdfs : Bool
  excludeRef : Option (List LabelSel)
  patches : Option (List Patch)
deriving DecidableEq

/-- Models `sleepinfo_base` (the `excludeRef`/`patches` keys are absent at
this point and are filled in by the callers). -/
def sleepinfo_base (weekdays sleepAtUTC : String) (wakeUpAtUTC : Option String)
    (tz : String)
    (suspendDeployments suspendStatefulSets suspendCronJobs : Bool)
    (suspendDeploymentsPgbouncer suspendStatefulSetsPostgres suspendStatefulSetsHdfs : Bool) :
    SleepSpec :=
  { weekdays := weekdays
    timeZone := tz
    sleepAt := sleepAtUTC
    suspendDeployments := suspendDeployments
    suspendStatefulSets := suspendStatefulSets
    suspendCronJobs := suspendCronJobs
    wakeUpAt := wakeUpAtUTC
    suspendDeploymentsPgbouncer := suspendDeploymentsPgbouncer
    suspendStatefulSetsPostgres := suspendStatefulSetsPostgres
    suspendStatefulSetsHdfs := suspendStatefulSetsHdfs
    excludeRef := none
    patches := none }

/-- Models the dictionary returned by `cr_yaml` (the `kind` argument is
ignored by the source; the kind is always `"SleepInfo"`). -/
structure SleepInfo where
  apiVersion : String
  kind : String
  metadata : Metadata
  spec : SleepSpec
deriving DecidableEq

/-- Models `cr_yaml(kind, metadata, spec)`. -/
def cr_yaml (_kind : String) (metadata : Metadata) (spec : SleepSpec) : SleepInfo :=
  { apiVersion := "kube-green.com/v1alpha1", kind := "SleepInfo",
    metadata := metadata, spec := spec }

/-- The shared correlation annotation keys. -/
def pairIdKey : String := "kube-green.stratio.com/pair-id"

/-- The pair-role annotation key. -/
def pairRoleKey : String := "kube-green.stratio.com/pair-role"

/-! ## Generators (`make_datastores_native_deploys_split_days`,
`make_ns_split_days`) -/

/-- Models `make_datastores_native_deploys_split_days`: the unified
datastores generator.  An uncaught `ValueError` from weekday expansion is
modeled as `Except.error`.  Both branches of the source build the same four
objects (one sleep plus three staggered wake SleepInfos sharing a pair-id);
they are transcribed separately, as in the source. -/
def make_datastores_native_deploys_split_days
    (tenant off_utc on_deployments_utc on_pg_hdfs on_pgbouncer wd_sleep wd_wake : String) :
    Except String (List SleepInfo) :=
  let ns := tenant ++ "-datastores"
  let base_name := "ds-deploys-" ++ tenant
  match _expand_weekdays_str wd_sleep with
  | .error e => .error e
  | .ok wdS =>
    match _expand_weekdays_str wd_wake with
    | .error e => .error e
    | .ok wdW =>
      let exclude_refs := get_exclude_pg_hdfs_refs
      if wdS.toFinset = wdW.toFinset then
        let shared_id := tenant ++ "-datastores"
        let ann_sleep := [(pairIdKey, shared_id), (pairRoleKey, "sleep")]
        let spec_sleep :=
          { sleepinfo_base wd_sleep off_utc none "UTC" true true true true true true with
            excludeRef := some exclude_refs }
        let ann_wake_pg_hdfs := [(pairIdKey, shared_id), (pairRoleKey, "wake")]
        let spec_wake_pg_hdfs :=
          { sleepinfo_base wd_wake on_pg_hdfs none "UTC" false false false false true true with
            excludeRef := some exclude_refs }
        let ann_wake_pgbouncer := [(pairIdKey, shared_id), (pairRoleKey, "wake")]
        let spec_wake_pgbouncer :=
          { sleepinfo_base wd_wake on_pgbouncer none "UTC" false false false true false false with
            excludeRef := some exclude_refs }
        let ann_wake_native := [(pairIdKey, shared_id), (pairRoleKey, "wake")]
        let spec_wake_native :=
          { sleepinfo_base wd_wake on_deployments_utc none "UTC" true true true true false false with
            excludeRef := some exclude_refs }
        .ok [cr_yaml "SleepInfo" (meta ("sleep-" ++ base_name) ns ann_sleep) spec_sleep,
             cr_yaml "SleepInfo" (meta ("wake-" ++ base_name ++ "-pg-hdfs") ns ann_wake_pg_hdfs) spec_wake_pg_hdfs,
             cr_yaml "SleepInfo" (meta ("wake-" ++ base_name ++ "-pgbouncer") ns ann_wake_pgbouncer) spec_wake_pgbouncer,
             cr_yaml "SleepInfo" (meta ("wake-" ++ base_name) ns ann_wake_native) spec_wake_native]
      else
        let shared_id := tenant ++ "-datastores"
        let ann_sleep := [(pairIdKey, shared_id), (pairRoleKey, "sleep")]
        let spec_sleep :=
          { sleepinfo_base wd_sleep off_utc none "UTC" true true true true true true with
            excludeRef := some exclude_refs }
        let ann_wake_pg_hdfs := [(pairIdKey, shared_id), (pairRoleKey, "wake")]
        let spec_wake_pg_hdfs :=
          { sleepinfo_base wd_wake on_pg_hdfs none "UTC" false false false false true true with
            excludeRef := some exclude_refs }
        let ann_wake_pgbouncer := [(pairIdKey, shared_id), (pairRoleKey, "wake")]
        let spec_wake_pgbouncer :=
          { sleepinfo_base wd_wake on_pgbouncer none "UTC" false false false true false false with
            excludeRef := some exclude_refs }
        let ann_wake_native := [(pairIdKey, shared_id), (pairRoleKey, "wake")]
        let spec_wake_native :=
          { sleepinfo_base wd_wake on_deployments_utc none "UTC" true true true true false false with
            excludeRef := some exclude_refs }
        .ok [cr_yaml "SleepInfo" (meta ("sleep-" ++ base_name) ns ann_sleep) spec_sleep,
             cr_yaml "SleepInfo" (meta ("wake-" ++ base_name ++ "-pg-hdfs") ns ann_wake_pg_hdfs) spec_wake_pg_hdfs,
             cr_yaml "SleepInfo" (meta ("wake-" ++ base_name ++ "-pgbouncer") ns ann_wake_pgbouncer) spec_wake_pgbouncer,
             cr_yaml "SleepInfo" (meta ("wake-" ++ base_name) ns ann_wake_native) spec_wake_native]

/-- Models `make_ns_split_days`: the generator for the simple namespace
groups.  Equal weekday sets yield one combined SleepInfo carrying `sleepAt`
and `wakeUpAt`; different weekday sets yield a sleep-only and a wake-only
SleepInfo correlated by pair-id/pair-role annotations (the wake object's
`sleepAt` carries the wake time).  `base_name` is accepted and unused, as in
the source. -/
def make_ns_split_days (tenant ns_suffix _base_name : String)
    (off_utc on_deployments_utc wd_sleep wd_wake : String)
    (suspend_statefulsets suspend_statefulsets_postgres : Bool)
    (extra_sleep_patches extra_wake_patches : Option (List Patch))
    (extra_exclude_labels : Option (List LabelSel)) :
    Except String (List SleepInfo) :=
  let ns := tenant ++ "-" ++ ns_suffix
  let exclude_ref : List LabelSel :=
    (match extra_exclude_labels with | some l => l | none => []) ++
      (if ns_suffix = "apps" then
        [[("cct.stratio.com/application_id", "virtualizer." ++ ns)]]
       else [])
  let all_patches : List Patch :=
    (match extra_sleep_patches with | some l => l | none => []) ++
      (match extra_wake_patches with | some l => l | none => [])
  match _expand_weekdays_str wd_sleep with
  | .error e => .error e
  | .ok wdS =>
    match _expand_weekdays_str wd_wake with
    | .error e => .error e
    | .ok wdW =>
      if wdS.toFinset = wdW.toFinset then
        let spec0 := sleepinfo_base wd_sleep off_utc (some on_deployments_utc) "UTC"
          true suspend_statefulsets true false suspend_statefulsets_postgres false
        let spec1 := if exclude_ref ≠ [] then { spec0 with excludeRef := some exclude_ref } else spec0
        let spec2 := if all_patches ≠ [] then { spec1 with patches := some all_patches } else spec1
        .ok [cr_yaml "SleepInfo" (meta (tenant ++ "-" ++ ns_suffix) ns []) spec2]
      else
        let shared_id := tenant ++ "-" ++ ns_suffix
        let shared_annotations := [(pairIdKey, shared_id), (pairRoleKey, "sleep")]
        let sspec0 := sleepinfo_base wd_sleep off_utc none "UTC"
          true suspend_statefulsets true false suspend_statefulsets_postgres false
        let sspec1 := if exclude_ref ≠ [] then { sspec0 with excludeRef := some exclude_ref } else sspec0
        let sspec2 :=
          match extra_sleep_patches with
          | some ps => if ps ≠ [] then { sspec1 with patches := some ps } else sspec1
          | none => sspec1
        let shared_annotations_wake := [(pairIdKey, shared_id), (pairRoleKey, "wake")]
        let wspec0 := sleepinfo_base wd_wake on_deployments_utc none "UTC"
          true suspend_statefulsets true false suspend_statefulsets_postgres false
        let wspec1 := if exclude_ref ≠ [] then { wspec0 with excludeRef := some exclude_ref } else wspec0
        let wspec2 :=
          match extra_wake_patches with
          | some ps => if ps ≠ [] then { wspec1 with patches := some ps } else wspec1
          | none => wspec1
        .ok [cr_yaml "SleepInfo" (meta ("sleep-" ++ tenant ++ "-" ++ ns_suffix) ns shared_annotations) sspec2,
             cr_yaml "SleepInfo" (meta ("wake-" ++ tenant ++ "-" ++ ns_suffix) ns shared_annotations_wake) wspec2]

/-! ## Namespace selection (`normalize_namespaces`, `allow_ns`) -/

/-- The `VALID_SUFFIXES` constant: the fixed namespace-group set. -/
def VALID_SUFFIXES : List String :=
  ["datastores", "apps", "rocket", "intelligence", "airflowsso"]

/-- Models `re.split(r"[,\s]+", s)` up to empty pieces (the caller skips
empty pieces, so splitting at every separator character is equivalent to
splitting at separator runs). -/
def splitTokensAux (acc : List Char) : List Char → List String
  | [] => [String.mk acc.reverse]
  | c :: cs =>
    if c = ',' ∨ isSpaceChar c then String.mk acc.reverse :: splitTokensAux [] cs
    else splitTokensAux (c :: acc) cs

/-- One iteration of the `for p in parts` loop of `normalize_namespaces`:
empty pieces are skipped, tokens are lowercased, unknown tokens are dropped
(with a warning in the source), and known tokens are added to the
accumulated set (modeled as a duplicate-free list). -/
def normStep (acc : List String) (p : String) : List String :=
  if p = "" then acc
  else
    let q := String.mk (p.toList.map lowerChar)
    if q ∈ VALID_SUFFIXES then (if q ∈ acc then acc else acc ++ [q]) else acc

/-- Models `normalize_namespaces` for a string (or absent) argument: unknown
group tokens are dropped with a warning; the result falls back to the full
group set when the remaining selection is empty.  (A list argument is
flattened by the source into the same token stream.)  The Python set is
modeled as a duplicate-free list. -/
def normalize_namespaces (ns_arg : Option String) : List String :=
  match ns_arg with
  | none => VALID_SUFFIXES
  | some s =>
    if s = "" then VALID_SUFFIXES
    else
      let parts := splitTokensAux [] (trimChars s.toList)
      let out := parts.foldl normStep []
      if out = [] then VALID_SUFFIXES else out

/-- The lowercased form of one selection token when it names a valid group,
`none` otherwise (empty pieces of the split are also `none`). -/
def validToken (p : String) : Option String :=
  if p = "" then none
  else
    let q := String.mk (p.toList.map lowerChar)
    if q ∈ VALID_SUFFIXES then some q else none

/-- The valid group tokens of a selection string, in order. -/
def validTokens (s : String) : List String :=
  (splitTokensAux [] (trimChars s.toList)).filterMap validToken

/-- Models `allow_ns`: a suffix is allowed when it is in the selection, with
an empty selection meaning no filter. -/
def allow_ns (selected : List String) (suffix : String) : Bool :=
  suffix ∈ (if selected = [] then VALID_SUFFIXES else selected)

/-! ## Lemmas about the deduplication loop -/

theorem mem_dedupeNats {seen l : List Nat} {x : Nat} :
    x ∈ dedupeNats seen l ↔ x ∈ l ∧ x ∉ seen := by
  induction l generalizing seen with
  | nil => simp [dedupeNats]
  | cons n rest ih =>
    by_cases h : n ∈ seen
    · simp only [dedupeNats, if_pos h, ih, List.mem_cons]
      constructor
      · rintro ⟨hx, hs⟩; exact ⟨Or.inr hx, hs⟩
      · rintro ⟨hx | hx, hs⟩
        · cases hx; exact absurd h hs
        · exact ⟨hx, hs⟩
    · simp only [dedupeNats, if_neg h, ih, List.mem_cons, not_or]
      constructor
      · rintro (rfl | ⟨hx, hs⟩)
        · exact ⟨Or.inl rfl, h⟩
        · exact ⟨Or.inr hx, hs.2⟩
      · rintro ⟨hx | hx, hs⟩
        · exact Or.inl hx
        · rcases eq_or_ne x n with rfl | hxn
          · exact Or.inl rfl
          · exact Or.inr ⟨hx, hxn, hs⟩

theorem nodup_dedupeNats (seen l : List Nat) : (dedupeNats seen l).Nodup := by
  induction l generalizing seen with
  | nil => simp [dedupeNats]
  | cons n rest ih =>
    by_cases h : n ∈ seen
    · simpa [dedupeNats, if_pos h] using ih seen
    · simp only [dedupeNats, if_neg h, List.nodup_cons]
      refine ⟨fun hm => ?_, ih (n :: seen)⟩
      exact (mem_dedupeNats.mp hm).2 (List.mem_cons_self _ _)

theorem toFinset_dedupeNats (l : List Nat) : (dedupeNats [] l).toFinset = l.toFinset := by
  ext x
  simp [List.mem_toFinset, mem_dedupeNats]

theorem dedupeNats_idem (seen l : List Nat) :
    dedupeNats seen (dedupeNats seen l) = dedupeNats seen l := by
  induction l generalizing seen with
  | nil => rfl
  | cons n rest ih =>
    by_cases h : n ∈ seen
    · simp [dedupeNats, h, ih]
    · simp [dedupeNats, h, ih]

theorem dedupeNats_eq_nil_iff (l : List Nat) : dedupeNats [] l = [] ↔ l = [] := by
  cases l with
  | nil => simp [dedupeNats]
  | cons n rest => simp [dedupeNats]

/-! ## Lemmas about character splitting and trimming -/

theorem splitOnChar_append (c : Char) (xs ys : List Char) (h : c ∉ xs) :
    splitOnChar c (xs ++ c :: ys) = xs :: splitOnChar c ys := by
  induction xs with
  | nil => simp [splitOnChar]
  | cons a as ih =>
    have ha : ¬(a = c) := fun hac => h (hac ▸ List.mem_cons_self a as)
    have h' : c ∉ as := fun hm => h (List.mem_cons_of_mem _ hm)
    simp only [List.cons_append, splitOnChar, if_neg ha]
    rw [List.append_eq, ih h']

theorem splitOnChar_of_not_mem (c : Char) (l : List Char) (h : c ∉ l) :
    splitOnChar c l = [l] := by
  induction l with
  | nil => rfl
  | cons a as ih =>
    have ha : ¬(a = c) := fun hac => h (hac ▸ List.mem_cons_self a as)
    have h' : c ∉ as := fun hm => h (List.mem_cons_of_mem _ hm)
    simp only [splitOnChar, if_neg ha, ih h']

theorem dropWhile_eq_self_of {p : Char → Bool} {l : List Char}
    (h : ∀ c ∈ l, p c = false) : l.dropWhile p = l := by
  cases l with
  | nil => rfl
  | cons a as => simp [List.dropWhile_cons, h a (List.mem_cons_self a as)]

theorem trimChars_eq_self {l : List Char} (h : ∀ c ∈ l, isSpaceChar c = false) :
    trimChars l = l := by
  unfold trimChars
  rw [dropWhile_eq_self_of h, dropWhile_eq_self_of (fun c hc => h c (List.mem_reverse.mp hc)),
    List.reverse_reverse]

/-! ## Facts about decimal digits of small numbers -/

theorem natToChars_char_facts :
    ∀ n : Nat, n < 10 → ∀ c ∈ natToChars n,
      isSpaceChar c = false ∧ isLetterEs c = false ∧ c ≠ ',' ∧ c ≠ ':' ∧ c ≠ '-' := by
  decide

theorem natToChars_facts :
    ∀ n : Nat, n < 10 →
      charsToNat (natToChars n) = some n ∧ natToChars n ≠ [] ∧
        trimChars (natToChars n) = natToChars n ∧ (natToChars n).contains '-' = false := by
  decide

theorem pad2_facts :
    ∀ n : Nat, n < 60 → charsToNat (pad2 n) = some n ∧ ':' ∉ pad2 n := by
  decide

/-! ## Round trip between `joinCommaNats` and `_expand_weekdays_str`
for the single-digit weekday values the source serializes -/

theorem joinCommaNats_cons_cons (n m : Nat) (rest : List Nat) :
    joinCommaNats (n :: m :: rest) = natToChars n ++ ',' :: joinCommaNats (m :: rest) := rfl

theorem comma_not_mem_natToChars {n : Nat} (h : n < 7) : ',' ∉ natToChars n :=
  fun hm => ((natToChars_char_facts n (by omega) ',' hm).2.2.1) rfl

theorem joinCommaNats_chars {l : List Nat} (hl : ∀ n ∈ l, n < 7) :
    ∀ c ∈ joinCommaNats l, isSpaceChar c = false ∧ isLetterEs c = false := by
  induction l with
  | nil => simp [joinCommaNats, intercalateChar]
  | cons n rest ih =>
    cases rest with
    | nil =>
      intro c hc
      have hc' : c ∈ natToChars n := by simpa [joinCommaNats, intercalateChar] using hc
      have hf := natToChars_char_facts n (by have := hl n (List.mem_cons_self n []); omega) c hc'
      exact ⟨hf.1, hf.2.1⟩
    | cons m rest' =>
      intro c hc
      rw [joinCommaNats_cons_cons] at hc
      rcases List.mem_append.mp hc with hc1 | hc2
      · have hf := natToChars_char_facts n
          (by have := hl n (List.mem_cons_self n (m :: rest')); omega) c hc1
        exact ⟨hf.1, hf.2.1⟩
      · rcases List.mem_cons.mp hc2 with rfl | hc3
        · exact ⟨by decide, by decide⟩
        · exact ih (fun k hk => hl k (List.mem_cons_of_mem n hk)) c hc3

theorem joinCommaNats_ne_nil {l : List Nat} (hl : ∀ n ∈ l, n < 7) (hne : l ≠ []) :
    joinCommaNats l ≠ [] := by
  cases l with
  | nil => exact absurd rfl hne
  | cons n rest =>
    have hn := (natToChars_facts n (by have := hl n (List.mem_cons_self n rest); omega)).2.1
    cases rest with
    | nil => simpa [joinCommaNats, intercalateChar] using hn
    | cons m rest' =>
      rw [joinCommaNats_cons_cons]
      simp [hn]

theorem splitOnChar_joinCommaNats {l : List Nat} (hl : ∀ n ∈ l, n < 7) (hne : l ≠ []) :
    splitOnChar ',' (joinCommaNats l) = l.map natToChars := by
  induction l with
  | nil => exact absurd rfl hne
  | cons n rest ih =>
    have hn7 : n < 7 := hl n (List.mem_cons_self n rest)
    cases rest with
    | nil =>
      have : joinCommaNats [n] = natToChars n := rfl
      rw [this, splitOnChar_of_not_mem ',' _ (comma_not_mem_natToChars hn7)]
      rfl
    | cons m rest' =>
      rw [joinCommaNats_cons_cons,
        splitOnChar_append ',' _ _ (comma_not_mem_natToChars hn7),
        ih (fun k hk => hl k (List.mem_cons_of_mem n hk)) (by simp)]
      rfl

theorem processChunks_map_natToChars {l : List Nat} (hl : ∀ n ∈ l, n < 7) :
    processChunks (l.map natToChars) = .ok l := by
  induction l with
  | nil => rfl
  | cons n rest ih =>
    have hn := natToChars_facts n (by have := hl n (List.mem_cons_self n rest); omega)
    have hnd : '-' ∉ natToChars n := by simpa using hn.2.2.2
    simp [processChunks, hn.1, hn.2.1, hn.2.2.1, hnd,
      ih (fun k hk => hl k (List.mem_cons_of_mem n hk))]

theorem expand_joinCommaNats {l : List Nat} (hl : ∀ n ∈ l, n < 7) (hne : l ≠ []) :
    _expand_weekdays_str (String.mk (joinCommaNats l)) = .ok (dedupeNats [] l) := by
  have hj := joinCommaNats_chars hl
  have hjn := joinCommaNats_ne_nil hl hne
  have hstr : ¬(String.mk (joinCommaNats l) = "") := by
    simpa [String.ext_iff] using hjn
  have htrim : trimChars (joinCommaNats l) = joinCommaNats l :=
    trimChars_eq_self (fun c hc => (hj c hc).1)
  have hany : (joinCommaNats l).any isLetterEs = false :=
    List.any_eq_false.mpr (fun c hc => by simp [(hj c hc).2])
  have h1 : splitOnChar ',' (joinCommaNats l) = l.map natToChars :=
    splitOnChar_joinCommaNats hl hne
  have h2 : processChunks (l.map natToChars) = .ok l :=
    processChunks_map_natToChars hl
  have htl : (String.mk (joinCommaNats l)).toList = joinCommaNats l := rfl
  simp [_expand_weekdays_str, hstr, htl, htrim, hany, h1, h2]

/-! ## Bounds on the day-name parser -/

theorem lookup_mem_snd {a : String} (l : List (String × Nat)) {b : Nat}
    (h : l.lookup a = some b) : b ∈ l.map Prod.snd := by
  induction l with
  | nil => simp [List.lookup] at h
  | cons kv rest ih =>
    rcases kv with ⟨k, v⟩
    simp only [List.lookup] at h
    cases hk : (a == k) with
    | true =>
      rw [hk] at h
      cases h
      exact List.mem_cons_self _ _
    | false =>
      rw [hk] at h
      exact List.mem_cons_of_mem _ (ih h)

theorem lookupDay_lt {s : String} {v : Nat} (h : lookupDay s = some v) : v < 7 := by
  have hm := lookup_mem_snd DAYS_ES h
  simp [DAYS_ES] at hm
  omega

theorem parseToken_ok_bound {p : List Char} {ns : List Nat}
    (h : parseToken p = .ok ns) : ∀ n ∈ ns, n < 7 := by
  unfold parseToken at h
  split at h
  · cases hA : lookupDay (String.mk (splitFirstDash p).1) with
    | none => simp only [hA] at h; cases h
    | some s0 =>
      cases hB : lookupDay (String.mk (splitFirstDash p).2) with
      | none => simp only [hA, hB] at h; cases h
      | some e0 =>
        simp only [hA, hB] at h
        have hs0 : s0 < 7 := lookupDay_lt hA
        have he0 : e0 < 7 := lookupDay_lt hB
        split at h
        · cases h
          intro n hn
          have := List.mem_range'_1.mp hn
          omega
        · cases h
          intro n hn
          rcases List.mem_append.mp hn with hn1 | hn2
          · have := List.mem_range'_1.mp hn1
            omega
          · have := List.mem_range'_1.mp hn2
            omega
  · cases hA : lookupDay (String.mk p) with
    | none => simp only [hA] at h; cases h
    | some v =>
      simp only [hA] at h
      cases h
      intro n hn
      rcases List.mem_cons.mp hn with rfl | hn'
      · exact lookupDay_lt hA
      · cases hn'

theorem parseTokens_ok_bound {ps : List (List Char)} {nums : List Nat}
    (h : parseTokens ps = .ok nums) : ∀ n ∈ nums, n < 7 := by
  induction ps generalizing nums with
  | nil => cases h; intro n hn; cases hn
  | cons p rest ih =>
    simp only [parseTokens] at h
    cases hp : parseToken p with
    | error e => rw [hp] at h; cases h
    | ok ns =>
      rw [hp] at h
      cases hr : parseTokens rest with
      | error e => rw [hr] at h; cases h
      | ok ms =>
        rw [hr] at h
        cases h
        intro n hn
        rcases List.mem_append.mp hn with hn1 | hn2
        · exact parseToken_ok_bound hp n hn1
        · exact ih hr n hn2

theorem parseTokens_isOk_iff {ps : List (List Char)} :
    (parseTokens ps).isOk = true ↔ ∀ p ∈ ps, (parseToken p).isOk = true := by
  induction ps with
  | nil => simp [parseTokens, Except.isOk, Except.toBool]
  | cons p rest ih =>
    cases hp : parseToken p with
    | error e =>
      simp only [parseTokens, hp]
      constructor
      · intro h; simp [Except.isOk, Except.toBool] at h
      · intro h
        have := h p (List.mem_cons_self p rest)
        rw [hp] at this
        simp [Except.isOk, Except.toBool] at this
    | ok ns =>
      cases hr : parseTokens rest with
      | error e =>
        simp only [parseTokens, hp, hr]
        constructor
        · intro h; simp [Except.isOk, Except.toBool] at h
        · intro h
          rw [← hr]
          exact ih.mpr (fun q hq => h q (List.mem_cons_of_mem p hq))
      | ok ms =>
        simp only [parseTokens, hp, hr]
        constructor
        · intro _ q hq
          rcases List.mem_cons.mp hq with rfl | hq'
          · simp [hp, Except.isOk, Except.toBool]
          · exact (ih.mp (by rw [hr]; simp [Except.isOk, Except.toBool])) q hq'
        · intro _; simp [Except.isOk, Except.toBool]

/-! ## Decidable equality for `Except` results -/

instance {ε α : Type} [DecidableEq ε] [DecidableEq α] : DecidableEq (Except ε α)
  | .ok a, .ok b =>
    if h : a = b then .isTrue (by rw [h]) else .isFalse (fun hc => h (Except.ok.inj hc))
  | .ok _, .error _ => .isFalse (fun hc => Except.noConfusion hc)
  | .error _, .ok _ => .isFalse (fun hc => Except.noConfusion hc)
  | .error e, .error f =>
    if h : e = f then .isTrue (by rw [h]) else .isFalse (fun hc => h (Except.error.inj hc))

/-! ## Round trip between `fmtHHMM` and `parse_hhmm` -/

theorem parse_fmt (t : Nat) (ht : t < 1440) :
    parse_hhmm (fmtHHMM t) = some (t / 60, t % 60) := by
  have h1 := pad2_facts (t / 60) (by omega)
  have h2 := pad2_facts (t % 60) (by omega)
  unfold fmtHHMM parse_hhmm
  have htl : (String.mk (pad2 (t / 60) ++ ':' :: pad2 (t % 60))).toList
      = pad2 (t / 60) ++ ':' :: pad2 (t % 60) := rfl
  rw [htl, splitOnChar_append ':' _ _ h1.2, splitOnChar_of_not_mem ':' _ h2.2]
  simp [h1.1, h2.1]

/-! ## Claim C1 -/

/-- C1: for every base wake time `T0` (a valid `HH:MM` string), the three
staggered wake instants of the dependency chain satisfy `T1 = T0 + 5min` and
`T2 = T0 + 7min`, computed modulo 24h wraparound, so the chain respects the
dependency order persistence tier, then pooling/proxy tier, then application
workloads. -/
theorem claim_C1_staggered_wake_chain (s : String) (hh mm : Nat)
    (hparse : parse_hhmm s = some (hh, mm)) (hhh : hh < 24) (hmm : mm < 60) :
    ∃ t1 t2, staggered_on_times s = some (s, t1, t2) ∧
      parse_hhmm t1 = some (((hh * 60 + mm + 5) % 1440) / 60, ((hh * 60 + mm + 5) % 1440) % 60) ∧
      parse_hhmm t2 = some (((hh * 60 + mm + 7) % 1440) / 60, ((hh * 60 + mm + 7) % 1440) % 60) := by
  have harith5 : (((hh * 60 + mm : Int) + 5) % 1440).toNat = (hh * 60 + mm + 5) % 1440 := by
    omega
  have harith7 : (((hh * 60 + mm : Int) + 7) % 1440).toNat = (hh * 60 + mm + 7) % 1440 := by
    omega
  have hadd5 : add_minutes_hhmm s 5 = some (fmtHHMM ((hh * 60 + mm + 5) % 1440)) := by
    simp only [add_minutes_hhmm, hparse]
    rw [if_pos ⟨hhh, hmm⟩, harith5]
  have hadd7 : add_minutes_hhmm s 7 = some (fmtHHMM ((hh * 60 + mm + 7) % 1440)) := by
    simp only [add_minutes_hhmm, hparse]
    rw [if_pos ⟨hhh, hmm⟩, harith7]
  refine ⟨fmtHHMM ((hh * 60 + mm + 5) % 1440), fmtHHMM ((hh * 60 + mm + 7) % 1440), ?_, ?_, ?_⟩
  · simp only [staggered_on_times, hadd5, hadd7]
  · exact parse_fmt _ (Nat.mod_lt _ (by omega))
  · exact parse_fmt _ (Nat.mod_lt _ (by omega))

/-- Witness for C1 at the claim's own example: base `23:58` yields
`T1 = 00:03` (and `T2 = 00:05`) under 24h wraparound. -/
theorem claim_C1_staggered_wake_chain_witness :
    ∃ t1 t2, staggered_on_times "23:58" = some ("23:58", t1, t2) ∧
      parse_hhmm t1 = some (0, 3) ∧ parse_hhmm t2 = some (0, 5) := by
  have h := claim_C1_staggered_wake_chain "23:58" 23 58 (by decide) (by omega) (by omega)
  simpa using h

/-! ## Claim C2 -/

/-- C2: in a UTC-minus-5 zone, local `22:00` converts to UTC `03:00` with
day-shift `+1`, local `23:00` to UTC `04:00` with `+1`, and local `03:00` to
UTC `08:00` with `0`; in general the returned day-shift is the signed
calendar-date difference between the UTC instant and the local instant
(the floor of the UTC minute value over one day) and lies in `{-1, 0, +1}`. -/
theorem claim_C2_local_to_utc_dayshift :
    to_utc_hhmm_and_dayshift (-300) "22:00" = some ("03:00", 1) ∧
    to_utc_hhmm_and_dayshift (-300) "23:00" = some ("04:00", 1) ∧
    to_utc_hhmm_and_dayshift (-300) "03:00" = some ("08:00", 0) ∧
    ∀ (off : Int) (s : String) (hh mm : Nat),
      parse_hhmm s = some (hh, mm) → hh < 24 → mm < 60 → -1440 < off → off < 1440 →
      ∃ u ds, to_utc_hhmm_and_dayshift off s = some (u, ds) ∧
        ds = ((hh * 60 + mm : Int) - off) / 1440 ∧
        -1 ≤ ds ∧ ds ≤ 1 ∧
        parse_hhmm u = some ((((hh * 60 + mm : Int) - off) % 1440).toNat / 60,
          (((hh * 60 + mm : Int) - off) % 1440).toNat % 60) := by
  refine ⟨by decide, by decide, by decide, ?_⟩
  intro off s hh mm hparse hhh hmm hlo hhi
  refine ⟨fmtHHMM (((hh * 60 + mm : Int) - off) % 1440).toNat,
    ((hh * 60 + mm : Int) - off) / 1440, ?_, rfl, ?_, ?_, ?_⟩
  · simp only [to_utc_hhmm_and_dayshift, hparse]
    rw [if_pos ⟨hhh, hmm⟩]
  · omega
  · omega
  · exact parse_fmt _ (by omega)

/-- Witness for C2: the general day-shift characterization applied to local
`22:00` with the Bogota offset. -/
theorem claim_C2_local_to_utc_dayshift_witness :
    ∃ u ds, to_utc_hhmm_and_dayshift (-300) "22:00" = some (u, ds) ∧
      ds = ((22 * 60 + 0 : Int) - (-300)) / 1440 ∧ -1 ≤ ds ∧ ds ≤ 1 ∧
      parse_hhmm u = some ((((22 * 60 + 0 : Int) - (-300)) % 1440).toNat / 60,
        (((22 * 60 + 0 : Int) - (-300)) % 1440).toNat % 60) :=
  claim_C2_local_to_utc_dayshift.2.2.2 (-300) "22:00" 22 0 (by decide)
    (by omega) (by omega) (by decide) (by decide)

/-! ## Claim C5 -/

/-- C5: circular weekday ranges wrap through 6 to 0: `"5-0"` expands to
`{5, 6, 0}` (not the empty set), the day-name range `viernes-domingo`
expands the same way, and in general a numeric range `a-b` with `b < a`
expands to `a..6` followed by `0..b`. -/
theorem claim_C5_circular_range :
    _expand_weekdays_str "5-0" = .ok [5, 6, 0] ∧
    human_weekdays_to_kube "viernes-domingo" = .ok "5,6,0" ∧
    ∀ a : Nat, a < 7 → ∀ b : Nat, b < 7 → b < a →
      _expand_weekdays_str (String.mk (natToChars a ++ '-' :: natToChars b)) =
        .ok (List.range' a (7 - a) ++ List.range' 0 (b + 1)) := by
  refine ⟨by decide, by decide, ?_⟩
  decide

/-- Witness for C5: the general circular expansion applied to `a = 5`,
`b = 0` gives `{5, 6, 0}`. -/
theorem claim_C5_circular_range_witness :
    _expand_weekdays_str (String.mk (natToChars 5 ++ '-' :: natToChars 0)) =
      .ok (List.range' 5 (7 - 5) ++ List.range' 0 (0 + 1)) :=
  claim_C5_circular_range.2.2 5 (by omega) 0 (by omega) (by omega)

/-! ## Claim C10 -/

/-- C10: an empty or whitespace-only weekday specification parses to the
full week: the canonical form `"0-6"`, whose membership set is
`{0, 1, 2, 3, 4, 5, 6}` (the absent case reaches the parser as the empty
string through the `(s or "")` guard of the source). -/
theorem claim_C10_empty_spec_full_week :
    (∀ s : String, trimChars s.toList = [] → human_weekdays_to_kube s = .ok "0-6") ∧
    _expand_weekdays_str "0-6" = .ok [0, 1, 2, 3, 4, 5, 6] := by
  refine ⟨?_, by decide⟩
  intro s hs
  have hs' : trimChars s.data = [] := hs
  simp [human_weekdays_to_kube, hs']

/-- Witness for C10: a whitespace-only specification parses to `"0-6"`. -/
theorem claim_C10_empty_spec_full_week_witness :
    human_weekdays_to_kube "   " = .ok "0-6" :=
  claim_C10_empty_spec_full_week.1 "   " (by decide)

/-! ## Claim C3 -/

/-- C3: when the shifted sleep weekday set equals the shifted wake weekday
set, every simple namespace group gets exactly one combined SleepInfo
(carrying the off time as `sleepAt` and the on time as `wakeUpAt`), and the
dependency-chain datastores group gets exactly four correlated objects: one
sleep object and three staggered wake objects sharing one pair-id. -/
theorem claim_C3_equal_weekdays_layout
    (tenant ns_suffix base_name off_utc on_dep on_pg_hdfs on_pgbouncer wd_sleep wd_wake : String)
    (ss ssp : Bool) (esp ewp : Option (List Patch)) (eel : Option (List LabelSel))
    (A B : List Nat)
    (hA : _expand_weekdays_str wd_sleep = .ok A)
    (hB : _expand_weekdays_str wd_wake = .ok B)
    (heq : A.toFinset = B.toFinset) :
    (∃ combined : SleepInfo,
      make_ns_split_days tenant ns_suffix base_name off_utc on_dep wd_sleep wd_wake
          ss ssp esp ewp eel = .ok [combined] ∧
        combined.spec.sleepAt = off_utc ∧ combined.spec.wakeUpAt = some on_dep) ∧
    (∃ o1 o2 o3 o4 : SleepInfo,
      make_datastores_native_deploys_split_days tenant off_utc on_dep on_pg_hdfs on_pgbouncer
          wd_sleep wd_wake = .ok [o1, o2, o3, o4] ∧
        o1.metadata.annotations = [(pairIdKey, tenant ++ "-datastores"), (pairRoleKey, "sleep")] ∧
        o2.metadata.annotations = [(pairIdKey, tenant ++ "-datastores"), (pairRoleKey, "wake")] ∧
        o3.metadata.annotations = [(pairIdKey, tenant ++ "-datastores"), (pairRoleKey, "wake")] ∧
        o4.metadata.annotations = [(pairIdKey, tenant ++ "-datastores"), (pairRoleKey, "wake")] ∧
        o1.spec.sleepAt = off_utc ∧ o1.spec.wakeUpAt = none ∧
        o2.spec.sleepAt = on_pg_hdfs ∧ o3.spec.sleepAt = on_pgbouncer ∧
        o4.spec.sleepAt = on_dep) := by
  constructor
  · simp only [make_ns_split_days, hA, hB, if_pos heq]
    refine ⟨_, rfl, ?_, ?_⟩
    · (repeat' split) <;> rfl
    · (repeat' split) <;> rfl
  · simp only [make_datastores_native_deploys_split_days, hA, hB, if_pos heq]
    exact ⟨_, _, _, _, rfl, rfl, rfl, rfl, rfl, rfl, rfl, rfl, rfl, rfl⟩

/-- Witness for C3: equal weekday sets (`"1"` against `"01"`, both denoting
the singleton set containing 1) yield a single combined object for the apps
group. -/
theorem claim_C3_equal_weekdays_layout_witness :
    ∃ combined : SleepInfo,
      make_ns_split_days "acme" "apps" "apps" "03:00" "11:07" "1" "01"
          false false none none none = .ok [combined] ∧
        combined.spec.sleepAt = "03:00" ∧ combined.spec.wakeUpAt = some "11:07" :=
  (claim_C3_equal_weekdays_layout "acme" "apps" "apps" "03:00" "11:07" "x" "y" "1" "01"
    false false none none none [1] [1] (by decide) (by decide) rfl).1

/-! ## Claim C4 -/

/-- C4: when the shifted sleep weekday set differs from the shifted wake
weekday set, a simple namespace group gets a sleep-only object (off time in
`sleepAt`, sleep weekdays, no `wakeUpAt` field) and a wake-only object whose
`sleepAt` carries the wake-trigger time (wake weekdays, no `wakeUpAt`), and
the two objects carry matching pair-id annotations with pair-role `sleep`
and `wake` respectively. -/
theorem claim_C4_split_pair_objects
    (tenant ns_suffix base_name off_utc on_dep wd_sleep wd_wake : String)
    (ss ssp : Bool) (esp ewp : Option (List Patch)) (eel : Option (List LabelSel))
    (A B : List Nat)
    (hA : _expand_weekdays_str wd_sleep = .ok A)
    (hB : _expand_weekdays_str wd_wake = .ok B)
    (hne : A.toFinset ≠ B.toFinset) :
    ∃ sObj wObj : SleepInfo,
      make_ns_split_days tenant ns_suffix base_name off_utc on_dep wd_sleep wd_wake
          ss ssp esp ewp eel = .ok [sObj, wObj] ∧
        sObj.spec.wakeUpAt = none ∧ sObj.spec.sleepAt = off_utc ∧
        sObj.spec.weekdays = wd_sleep ∧
        sObj.metadata.annotations =
          [(pairIdKey, tenant ++ "-" ++ ns_suffix), (pairRoleKey, "sleep")] ∧
        wObj.spec.wakeUpAt = none ∧ wObj.spec.sleepAt = on_dep ∧
        wObj.spec.weekdays = wd_wake ∧
        wObj.metadata.annotations =
          [(pairIdKey, tenant ++ "-" ++ ns_suffix), (pairRoleKey, "wake")] := by
  simp only [make_ns_split_days, hA, hB, if_neg hne]
  rcases esp with _ | ps <;> rcases ewp with _ | qs <;>
    refine ⟨_, _, rfl, ?_, ?_, ?_, ?_, ?_, ?_, ?_, ?_⟩ <;>
    (repeat' split) <;> rfl

/-- Witness for C4: different weekday sets (`"1"` against `"2"`) yield a
sleep-only and a wake-only object for the rocket group. -/
theorem claim_C4_split_pair_objects_witness :
    ∃ sObj wObj : SleepInfo,
      make_ns_split_days "acme" "rocket" "rocket" "03:00" "11:07" "1" "2"
          false false none none none = .ok [sObj, wObj] ∧
        sObj.spec.wakeUpAt = none ∧ sObj.spec.sleepAt = "03:00" ∧
        sObj.spec.weekdays = "1" ∧
        sObj.metadata.annotations =
          [(pairIdKey, "acme" ++ "-" ++ "rocket"), (pairRoleKey, "sleep")] ∧
        wObj.spec.wakeUpAt = none ∧ wObj.spec.sleepAt = "11:07" ∧
        wObj.spec.weekdays = "2" ∧
        wObj.metadata.annotations =
          [(pairIdKey, "acme" ++ "-" ++ "rocket"), (pairRoleKey, "wake")] :=
  claim_C4_split_pair_objects "acme" "rocket" "rocket" "03:00" "11:07" "1" "2"
    false false none none none [1] [2] (by decide) (by decide) (by decide)

/-! ## Claim C6 -/

/-- Counterexample to C6 as stated: in `"1,lunes"` every comma-separated
token is a recognized day name or purely numeric (`"1"` is purely numeric,
`"lunes"` is a day name), yet parsing fails, because the numeric fast path
only applies when the whole specification is numeric and the day-name loop
rejects numeric tokens. -/
theorem claim_C6_counterexample :
    (human_weekdays_to_kube "1,lunes").isOk = false ∧
    humanParts "1,lunes" = ["1".toList, "lunes".toList] ∧
    "1".toList.all Char.isDigit = true ∧
    lookupDay "lunes" = some 1 := by
  refine ⟨by decide, by decide, by decide, by decide⟩

/-- C6 as amended: for a non-empty specification, parsing fails with
`ParseError` if and only if the whole specification is not in the numeric
form (single digits separated by `-` or `,`, with optional whitespace) and
some comma-separated token of the normalized input is neither a recognized
day name (case- and accent-insensitive) nor a day-name range; every
specification entirely in the numeric form is accepted and passed through
unchanged except for space removal. -/
theorem claim_C6_amended (s : String) :
    ((human_weekdays_to_kube s).isOk = false ↔
      (trimChars s.toList ≠ [] ∧ numericForm (trimChars s.toList) = false ∧
        ∃ p ∈ humanParts s, (parseToken p).isOk = false)) ∧
    (numericForm (trimChars s.toList) = true →
      human_weekdays_to_kube s =
        .ok (String.mk ((trimChars s.toList).filter (fun c => c ≠ ' ')))) := by
  constructor
  · by_cases h0 : trimChars s.toList = []
    · have h0' : trimChars s.data = [] := h0
      simp [human_weekdays_to_kube, h0', Except.isOk, Except.toBool, h0]
    · by_cases h1 : numericForm (trimChars s.toList) = true
      · have h0' : ¬(trimChars s.data = []) := h0
        have h1' : numericForm (trimChars s.data) = true := h1
        simp [human_weekdays_to_kube, h0', h1', Except.isOk, Except.toBool, h1]
      · have hnum : numericForm (trimChars s.toList) = false := by
          cases hx : numericForm (trimChars s.toList)
          · rfl
          · exact absurd hx h1
        have h0' : ¬(trimChars s.data = []) := h0
        have h1' : ¬(numericForm (trimChars s.data) = true) := h1
        have hmain : human_weekdays_to_kube s =
            (match parseTokens (humanParts s) with
              | .error e => .error e
              | .ok nums => .ok (String.mk (joinCommaNats (dedupeNats [] nums)))) := by
          simp [human_weekdays_to_kube, h0', h1']
        cases hp : parseTokens (humanParts s) with
        | error e =>
          have hex : ∃ p ∈ humanParts s, (parseToken p).isOk = false := by
            by_contra hall
            push_neg at hall
            have hallOk : ∀ p ∈ humanParts s, (parseToken p).isOk = true := by
              intro p hpm
              have := hall p hpm
              cases hcase : (parseToken p).isOk
              · exact absurd hcase this
              · rfl
            have hOk := parseTokens_isOk_iff.mpr hallOk
            rw [hp] at hOk
            simp [Except.isOk, Except.toBool] at hOk
          rw [hmain, hp]
          exact ⟨fun _ => ⟨h0, hnum, hex⟩, fun _ => rfl⟩
        | ok nums =>
          rw [hmain, hp]
          constructor
          · intro hbad
            simp [Except.isOk, Except.toBool] at hbad
          · rintro ⟨_, _, p, hpm, hbad⟩
            have hallOk := parseTokens_isOk_iff.mp (by rw [hp]; rfl)
            rw [hallOk p hpm] at hbad
            cases hbad
  · intro h1
    have h0 : ¬(trimChars s.data = []) := by
      intro h0
      have : numericForm (trimChars s.toList) = false := by
        have h0'' : trimChars s.toList = [] := h0
        rw [h0'']
        rfl
      rw [h1] at this
      cases this
    have h1' : numericForm (trimChars s.data) = true := h1
    simp [human_weekdays_to_kube, h0, h1']

/-- Witness for C6 as amended: a numeric-form specification is passed
through with spaces removed. -/
theorem claim_C6_amended_witness :
    human_weekdays_to_kube "1 - 3" =
      .ok (String.mk ((trimChars "1 - 3".toList).filter (fun c => c ≠ ' '))) :=
  (claim_C6_amended "1 - 3").2 (by decide)

/-! ## Claim C7 -/

/-- A serialized weekday list built by joining a deduplicated list of
in-range members re-parses to a duplicate-free list of members in `[0, 6]`
(an empty list serializes to the empty string, which the parser reads as
the full week, still duplicate-free and in range). -/
theorem expand_of_join_dedupe (nums : List Nat) (hb : ∀ n ∈ nums, n < 7) :
    ∃ l, _expand_weekdays_str (String.mk (joinCommaNats (dedupeNats [] nums))) = .ok l ∧
      l.Nodup ∧ ∀ n ∈ l, n < 7 := by
  rcases eq_or_ne nums [] with rfl | hne
  · exact ⟨List.range 7, by decide, by decide, by decide⟩
  · have hd : ∀ n ∈ dedupeNats [] nums, n < 7 :=
      fun n hn => hb n (mem_dedupeNats.mp hn).1
    have hdne : dedupeNats [] nums ≠ [] := by
      rw [Ne, dedupeNats_eq_nil_iff]
      exact hne
    refine ⟨dedupeNats [] (dedupeNats [] nums), expand_joinCommaNats hd hdne, ?_, ?_⟩
    · exact nodup_dedupeNats _ _
    · intro n hn
      exact hd n (mem_dedupeNats.mp hn).1

/-- Counterexample to C7 as stated: the numeric fast path of the parser
passes digits through unvalidated, so `parse("7")` yields the weekday value
7, which is outside `[0, 6]`. -/
theorem claim_C7_counterexample :
    human_weekdays_to_kube "7" = .ok "7" ∧
    _expand_weekdays_str "7" = .ok [7] ∧
    ¬(7 : Nat) ≤ 6 := by
  refine ⟨by decide, by decide, by decide⟩

/-- C7 as amended: every WeekdaySpec produced by the shifter is a
deduplicated set of members in `[0, 6]`, and so is every WeekdaySpec the
parser produces from input that is not in the numeric pass-through form;
numeric-form input is passed through unvalidated, so out-of-range digits
such as `"7"` are not rejected there. -/
theorem claim_C7_amended :
    (∀ (raw : String) (k : Int) (out : String),
      _shift_weekdays_str raw k = .ok out →
      ∃ l, _expand_weekdays_str out = .ok l ∧ l.Nodup ∧ ∀ n ∈ l, n < 7) ∧
    (∀ (s out : String),
      numericForm (trimChars s.toList) = false →
      human_weekdays_to_kube s = .ok out →
      ∃ l, _expand_weekdays_str out = .ok l ∧ l.Nodup ∧ ∀ n ∈ l, n < 7) := by
  constructor
  · intro raw k out hsh
    simp only [_shift_weekdays_str] at hsh
    cases hexp : _expand_weekdays_str raw with
    | error e => rw [hexp] at hsh; cases hsh
    | ok lst =>
      rw [hexp] at hsh
      cases hsh
      exact expand_of_join_dedupe _ (by
        intro n hn
        rcases List.mem_map.mp hn with ⟨m, _, rfl⟩
        exact Nat.mod_lt _ (by omega))
  · intro s out hnum hok
    by_cases h0 : trimChars s.toList = []
    · simp only [human_weekdays_to_kube] at hok
      rw [if_pos h0] at hok
      cases hok
      exact ⟨[0, 1, 2, 3, 4, 5, 6], by decide, by decide, by decide⟩
    · have h1' : ¬(numericForm (trimChars s.toList) = true) := by
        intro hx
        rw [hnum] at hx
        cases hx
      simp only [human_weekdays_to_kube] at hok
      rw [if_neg h0, if_neg h1'] at hok
      cases hp : parseTokens (humanParts s) with
      | error e => rw [hp] at hok; cases hok
      | ok nums =>
        rw [hp] at hok
        cases hok
        exact expand_of_join_dedupe _ (parseTokens_ok_bound hp)

/-- Witness for C7 as amended: shifting the full week by one day yields a
serialized set that re-parses to a duplicate-free list inside `[0, 6]`. -/
theorem claim_C7_amended_witness :
    ∃ l, _expand_weekdays_str "1,2,3,4,5,6,0" = .ok l ∧ l.Nodup ∧ ∀ n ∈ l, n < 7 :=
  claim_C7_amended.1 "0-6" 1 "1,2,3,4,5,6,0" (by decide)

/-! ## Claim C8 -/

/-- Counterexample to C8 as stated: the spec `","` denotes the empty
membership set, but its shift serializes to the empty string, which the
parser reads back as the full week.  So `shift(",", 0)` is not
membership-equal to `","` (identity fails), and
`shift(shift(",", 1), 1) = shift("", 1)` denotes the full week while
`shift(",", (1+1) mod 7)` denotes the empty set (composability fails). -/
theorem claim_C8_counterexample :
    _expand_weekdays_str "," = .ok [] ∧
    _shift_weekdays_str "," 0 = .ok "" ∧
    _expand_weekdays_str "" = .ok [0, 1, 2, 3, 4, 5, 6] ∧
    _shift_weekdays_str "," 1 = .ok "" ∧
    _shift_weekdays_str "" 1 = .ok "1,2,3,4,5,6,0" ∧
    _shift_weekdays_str "," 2 = .ok "" := by
  refine ⟨by decide, by decide, by decide, by decide, by decide, by decide⟩

/-- C8 as amended: for every weekday spec whose expansion is non-empty,
`shift(spec, 0)` is membership-equal to the spec (when its members are
weekday values in `[0, 6]`), and
`shift(shift(spec, a), b)` is membership-equal to
`shift(spec, (a + b) mod 7)` for all shifts `a`, `b`.  A spec denoting the
empty set breaks both laws because its shift serializes to the empty
string, which re-parses as the full week. -/
theorem claim_C8_amended (raw : String) (l : List Nat) (a b : Int)
    (hexp : _expand_weekdays_str raw = .ok l) (hne : l ≠ []) :
    ((∀ n ∈ l, n < 7) →
      ∃ out l0, _shift_weekdays_str raw 0 = .ok out ∧
        _expand_weekdays_str out = .ok l0 ∧ l0.toFinset = l.toFinset) ∧
    (∃ o1 o12 o2 l12 l2,
      _shift_weekdays_str raw a = .ok o1 ∧
      _shift_weekdays_str o1 b = .ok o12 ∧
      _shift_weekdays_str raw ((a + b) % 7) = .ok o2 ∧
      _expand_weekdays_str o12 = .ok l12 ∧
      _expand_weekdays_str o2 = .ok l2 ∧
      l12.toFinset = l2.toFinset) := by
  constructor
  · intro hl7
    have hmap : l.map (fun n => (n + ((0 : Int) % 7).toNat) % 7) = l := by
      have : l.map (fun n => (n + ((0 : Int) % 7).toNat) % 7) = l.map id :=
        List.map_congr_left (fun n hn => by
          have := hl7 n hn
          simp only [id]
          omega)
      rw [this, List.map_id]
    have hd7 : ∀ n ∈ dedupeNats [] l, n < 7 :=
      fun n hn => hl7 n (mem_dedupeNats.mp hn).1
    have hdne : dedupeNats [] l ≠ [] := by
      rw [Ne, dedupeNats_eq_nil_iff]
      exact hne
    refine ⟨String.mk (joinCommaNats (dedupeNats [] l)),
      dedupeNats [] (dedupeNats [] l), ?_, expand_joinCommaNats hd7 hdne, ?_⟩
    · simp only [_shift_weekdays_str, hexp]
      rw [hmap]
    · rw [dedupeNats_idem, toFinset_dedupeNats]
  · have ha0 : (0 : Int) ≤ a % 7 := Int.emod_nonneg a (by norm_num)
    have hb0 : (0 : Int) ≤ b % 7 := Int.emod_nonneg b (by norm_num)
    have hkey : ∀ n : Nat,
        ((n + (a % 7).toNat) % 7 + (b % 7).toNat) % 7 =
          (n + (((a + b) % 7) % 7).toNat) % 7 := by
      intro n
      omega
    have hne1 : dedupeNats [] (l.map (fun n => (n + (a % 7).toNat) % 7)) ≠ [] := by
      rw [Ne, dedupeNats_eq_nil_iff, List.map_eq_nil_iff]
      exact hne
    have hmem1 : ∀ n ∈ dedupeNats [] (l.map (fun n => (n + (a % 7).toNat) % 7)), n < 7 := by
      intro n hn
      rcases List.mem_map.mp (mem_dedupeNats.mp hn).1 with ⟨m, _, rfl⟩
      exact Nat.mod_lt _ (by omega)
    have hexp1 : _expand_weekdays_str
        (String.mk (joinCommaNats (dedupeNats [] (l.map (fun n => (n + (a % 7).toNat) % 7)))))
        = .ok (dedupeNats [] (l.map (fun n => (n + (a % 7).toNat) % 7))) := by
      rw [expand_joinCommaNats hmem1 hne1, dedupeNats_idem]
    have hne12 : dedupeNats []
        ((dedupeNats [] (l.map (fun n => (n + (a % 7).toNat) % 7))).map
          (fun n => (n + (b % 7).toNat) % 7)) ≠ [] := by
      rw [Ne, dedupeNats_eq_nil_iff, List.map_eq_nil_iff]
      exact hne1
    have hmem12 : ∀ n ∈ dedupeNats []
        ((dedupeNats [] (l.map (fun n => (n + (a % 7).toNat) % 7))).map
          (fun n => (n + (b % 7).toNat) % 7)), n < 7 := by
      intro n hn
      rcases List.mem_map.mp (mem_dedupeNats.mp hn).1 with ⟨m, _, rfl⟩
      exact Nat.mod_lt _ (by omega)
    have hne2 : dedupeNats [] (l.map (fun n => (n + (((a + b) % 7) % 7).toNat) % 7)) ≠ [] := by
      rw [Ne, dedupeNats_eq_nil_iff, List.map_eq_nil_iff]
      exact hne
    have hmem2 : ∀ n ∈ dedupeNats []
        (l.map (fun n => (n + (((a + b) % 7) % 7).toNat) % 7)), n < 7 := by
      intro n hn
      rcases List.mem_map.mp (mem_dedupeNats.mp hn).1 with ⟨m, _, rfl⟩
      exact Nat.mod_lt _ (by omega)
    refine ⟨String.mk (joinCommaNats (dedupeNats []
        (l.map (fun n => (n + (a % 7).toNat) % 7)))),
      String.mk (joinCommaNats (dedupeNats []
        ((dedupeNats [] (l.map (fun n => (n + (a % 7).toNat) % 7))).map
          (fun n => (n + (b % 7).toNat) % 7)))),
      String.mk (joinCommaNats (dedupeNats []
        (l.map (fun n => (n + (((a + b) % 7) % 7).toNat) % 7)))),
      dedupeNats [] ((dedupeNats [] (l.map (fun n => (n + (a % 7).toNat) % 7))).map
        (fun n => (n + (b % 7).toNat) % 7)),
      dedupeNats [] (l.map (fun n => (n + (((a + b) % 7) % 7).toNat) % 7)),
      ?_, ?_, ?_, ?_, ?_, ?_⟩
    · simp only [_shift_weekdays_str, hexp]
    · simp only [_shift_weekdays_str, hexp1]
    · simp only [_shift_weekdays_str, hexp]
    · rw [expand_joinCommaNats hmem12 hne12, dedupeNats_idem]
    · rw [expand_joinCommaNats hmem2 hne2, dedupeNats_idem]
    · ext x
      constructor
      · intro hx
        have hx1 := (mem_dedupeNats.mp (List.mem_toFinset.mp hx)).1
        rcases List.mem_map.mp hx1 with ⟨m, hm, hfx⟩
        have hm1 := (mem_dedupeNats.mp hm).1
        rcases List.mem_map.mp hm1 with ⟨n, hn, hfn⟩
        apply List.mem_toFinset.mpr
        apply mem_dedupeNats.mpr
        refine ⟨List.mem_map.mpr ⟨n, hn, ?_⟩, List.not_mem_nil x⟩
        rw [← hfx, ← hfn]
        exact (hkey n).symm
      · intro hx
        have hx1 := (mem_dedupeNats.mp (List.mem_toFinset.mp hx)).1
        rcases List.mem_map.mp hx1 with ⟨n, hn, hfn⟩
        apply List.mem_toFinset.mpr
        apply mem_dedupeNats.mpr
        refine ⟨List.mem_map.mpr ⟨(n + (a % 7).toNat) % 7, ?_, ?_⟩, List.not_mem_nil x⟩
        · exact mem_dedupeNats.mpr ⟨List.mem_map.mpr ⟨n, hn, rfl⟩, List.not_mem_nil _⟩
        · rw [← hfn]
          exact hkey n

/-- Witness for C8 as amended: composability applied to the spec `"1,2"`
with shifts 6 and 2. -/
theorem claim_C8_amended_witness :
    ∃ o1 o12 o2 l12 l2,
      _shift_weekdays_str "1,2" 6 = .ok o1 ∧
      _shift_weekdays_str o1 2 = .ok o12 ∧
      _shift_weekdays_str "1,2" ((6 + 2) % 7) = .ok o2 ∧
      _expand_weekdays_str o12 = .ok l12 ∧
      _expand_weekdays_str o2 = .ok l2 ∧
      l12.toFinset = l2.toFinset :=
  (claim_C8_amended "1,2" [1, 2] 6 2 (by decide) (by decide)).2

/-! ## Claim C9 -/

/-- Membership in the accumulator loop of `normalize_namespaces`: an element
is selected exactly when it was already accumulated or is the lowercased
form of some valid token of the remaining parts. -/
theorem foldl_normStep_mem (parts : List String) (acc : List String) (x : String) :
    x ∈ parts.foldl normStep acc ↔ x ∈ acc ∨ x ∈ parts.filterMap validToken := by
  induction parts generalizing acc with
  | nil => simp
  | cons p rest ih =>
    rw [List.foldl_cons, ih]
    by_cases hp : p = ""
    · have h1 : normStep acc p = acc := by simp [normStep, hp]
      have h2 : validToken p = none := by simp [validToken, hp]
      rw [h1]
      simp only [List.filterMap_cons, h2]
    · by_cases hv : String.mk (p.data.map lowerChar) ∈ VALID_SUFFIXES
      · have h2 : validToken p = some (String.mk (p.data.map lowerChar)) := by
          simp [validToken, hp, hv]
        simp only [List.filterMap_cons, h2]
        by_cases hacc : String.mk (p.data.map lowerChar) ∈ acc
        · have h1 : normStep acc p = acc := by simp [normStep, hp, hv, hacc]
          rw [h1]
          constructor
          · rintro (h | h)
            · exact Or.inl h
            · exact Or.inr (List.mem_cons_of_mem _ h)
          · rintro (h | h)
            · exact Or.inl h
            · rcases List.mem_cons.mp h with rfl | h'
              · exact Or.inl hacc
              · exact Or.inr h'
        · have h1 : normStep acc p = acc ++ [String.mk (p.data.map lowerChar)] := by
            simp [normStep, hp, hv, hacc]
          rw [h1]
          constructor
          · rintro (h | h)
            · rcases List.mem_append.mp h with h' | h'
              · exact Or.inl h'
              · rcases List.mem_singleton.mp h' with rfl
                exact Or.inr (List.mem_cons_self _ _)
            · exact Or.inr (List.mem_cons_of_mem _ h)
          · rintro (h | h)
            · exact Or.inl (List.mem_append.mpr (Or.inl h))
            · rcases List.mem_cons.mp h with rfl | h'
              · exact Or.inl (List.mem_append.mpr (Or.inr (List.mem_singleton.mpr rfl)))
              · exact Or.inr h'
      · have h1 : normStep acc p = acc := by simp [normStep, hp, hv]
        have h2 : validToken p = none := by simp [validToken, hp, hv]
        rw [h1]
        simp only [List.filterMap_cons, h2]

/-- C9: an unrecognized group token is dropped and processing continues
with the remaining valid tokens; the selection falls back to the full fixed
group set exactly when the argument is absent or empty or every token was
dropped (no token names a valid group). -/
theorem claim_C9_namespace_selection :
    normalize_namespaces none = VALID_SUFFIXES ∧
    ∀ s : String,
      (validTokens s = [] → normalize_namespaces (some s) = VALID_SUFFIXES) ∧
      (validTokens s ≠ [] →
        ∀ x, x ∈ normalize_namespaces (some s) ↔ x ∈ validTokens s) := by
  refine ⟨rfl, ?_⟩
  intro s
  by_cases hs : s = ""
  · subst hs
    constructor
    · intro _
      rfl
    · intro hne
      exact absurd (by decide : validTokens "" = []) hne
  · have hmem : ∀ x, x ∈ (splitTokensAux [] (trimChars s.toList)).foldl normStep [] ↔
        x ∈ validTokens s := by
      intro x
      rw [foldl_normStep_mem]
      simp [validTokens]
    have hout : ((splitTokensAux [] (trimChars s.toList)).foldl normStep [] = []) ↔
        validTokens s = [] := by
      constructor
      · intro h
        rw [List.eq_nil_iff_forall_not_mem] at h ⊢
        intro x hx
        exact h x ((hmem x).mpr hx)
      · intro h
        rw [List.eq_nil_iff_forall_not_mem] at h ⊢
        intro x hx
        exact h x ((hmem x).mp hx)
    have hnorm : normalize_namespaces (some s) =
        (if (splitTokensAux [] (trimChars s.toList)).foldl normStep [] = []
          then VALID_SUFFIXES
          else (splitTokensAux [] (trimChars s.toList)).foldl normStep []) := by
      simp [normalize_namespaces, hs]
    constructor
    · intro hv
      rw [hnorm, if_pos (hout.mpr hv)]
    · intro hv x
      rw [hnorm, if_neg (fun hc => hv (hout.mp hc))]
      exact hmem x

/-- Witness for C9: in the selection `"apps,bogus"` the unknown token is
dropped and the valid one is kept. -/
theorem claim_C9_namespace_selection_witness :
    "apps" ∈ normalize_namespaces (some "apps,bogus") :=
  ((claim_C9_namespace_selection.2 "apps,bogus").2 (by decide) "apps").mpr (by decide)

end TenantPower
